import Mathlib

/-!
# Verification of the snapshot / apply core of `viveklak/pulumi`

This development shallowly embeds the parts of the repository that the
integrity, cloning, checksum and preview/confirm/apply claims are about:

* `pkg/resource/deploy/snapshot.go` — `Manifest.NewMagic`, `Snapshot.VerifyIntegrity`
  and `Snapshot.Clone`;
* `pkg/backend/apply.go` — `PreviewThenPrompt`, `confirmBeforeUpdating` and
  `PreviewThenPromptThenExecute`.

Go machine integers are embedded as `Nat` with explicit reduction modulo
`2^32` where the source (the SHA-256 computation of `crypto/sha256` used by
`NewMagic`) overflows; Go maps used by `VerifyIntegrity` are embedded as
association lists with Go-map lookup/overwrite semantics; Go's `error` results
are embedded as `Option` values (`none` = the `nil` error).
-/

set_option autoImplicit false

namespace Pulumi

/-! ## Association lists with Go-map semantics

`VerifyIntegrity` uses two Go maps (`urns` and `seenLive`).  A Go map is
embedded as a `List (String × α)`: `mapGet` is `m[k]` (`none` when the key is
absent, mirroring `ok = false`) and `mapSet` is `m[k] = v` (overwrite). -/

def mapGet {α : Type} (m : List (String × α)) (k : String) : Option α :=
  match m with
  | [] => none
  | (k', v) :: rest => if k' = k then some v else mapGet rest k

def mapSet {α : Type} (m : List (String × α)) (k : String) (v : α) : List (String × α) :=
  match m with
  | [] => [(k, v)]
  | (k', v') :: rest => if k' = k then (k, v) :: rest else (k', v') :: mapSet rest k v

theorem mapGet_mapSet {α : Type} (m : List (String × α)) (k k' : String) (v : α) :
    mapGet (mapSet m k v) k' = if k' = k then some v else mapGet m k' := by
  induction m with
  | nil =>
    by_cases h : k' = k
    · subst h; simp [mapGet, mapSet]
    · have h2 : ¬ k = k' := fun hh => h hh.symm
      simp [mapGet, mapSet, h, h2]
  | cons p rest ih =>
    obtain ⟨pk, pv⟩ := p
    by_cases hpk : pk = k
    · subst hpk
      by_cases h : k' = pk
      · subst h; simp [mapGet, mapSet]
      · have h2 : ¬ pk = k' := fun hh => h hh.symm
        simp [mapGet, mapSet, h, h2]
    · simp only [mapSet, if_neg hpk, mapGet, ih]
      by_cases h2 : pk = k'
      · subst h2
        simp [hpk]
      · simp [h2]

/-! ## SHA-256 (`crypto/sha256`, as used by `Manifest.NewMagic`)

`NewMagic` returns `fmt.Sprintf("%x", sha256.Sum256([]byte(m.Version)))`.
The Go standard library's SHA-256 is embedded below over `Nat`, reducing
modulo `2^32` wherever the 32-bit words of the algorithm overflow; the
message is the UTF-8 byte sequence of the version string, and the output is
the lowercase hex rendering of the 32 digest bytes (eight 32-bit words). -/

namespace SHA256

/-- Reduce to a 32-bit word. -/
def w32 (n : Nat) : Nat := n % 4294967296

/-- Right-rotation of a 32-bit word by `k` (for `0 < k < 32`). -/
def rotr (x k : Nat) : Nat := (x >>> k) ||| w32 (x <<< (32 - k))

/-- The 64 round constants of FIPS 180-4, written in decimal. -/
def K : List Nat :=
  [1116352408, 1899447441, 3049323471, 3921009573, 961987163, 1508970993,
   2453635748, 2870763221, 3624381080, 310598401, 607225278, 1426881987,
   1925078388, 2162078206, 2614888103, 3248222580, 3835390401, 4022224774,
   264347078, 604807628, 770255983, 1249150122, 1555081692, 1996064986,
   2554220882, 2821834349, 2952996808, 3210313671, 3336571891, 3584528711,
   113926993, 338241895, 666307205, 773529912, 1294757372, 1396182291,
   1695183700, 1986661051, 2177026350, 2456956037, 2730485921, 2820302411,
   3259730800, 3345764771, 3516065817, 3600352804, 4094571909, 275423344,
   430227734, 506948616, 659060556, 883997877, 958139571, 1322822218,
   1537002063, 1747873779, 1955562222, 2024104815, 2227730452, 2361852424,
   2428436474, 2756734187, 3204031479, 3329325298]

/-- The initial hash value (eight 32-bit words), written in decimal. -/
def H0 : List Nat :=
  [1779033703, 3144134277, 1013904242, 2773480762,
   1359893119, 2600822924, 528734635, 1541459225]

/-- Big-endian rendering of a 64-bit value as 8 bytes. -/
def be8 (n : Nat) : List Nat :=
  (List.range 8).map (fun i => (n >>> ((7 - i) * 8)) % 256)

/-- Merkle–Damgård padding: `0x80`, zeros to 56 mod 64, then the bit length. -/
def pad (msg : List Nat) : List Nat :=
  let z := (119 - (msg.length % 64)) % 64
  msg ++ [0x80] ++ List.replicate z 0 ++ be8 (msg.length * 8)

/-- Group bytes into big-endian 32-bit words. -/
def toWords : List Nat → List Nat
  | a :: b :: c :: d :: rest => (((a * 256 + b) * 256 + c) * 256 + d) :: toWords rest
  | _ => []

/-- Split a byte sequence into 64-byte chunks. -/
def chunks (l : List Nat) : List (List Nat) :=
  if h : l = [] then [] else l.take 64 :: chunks (l.drop 64)
termination_by l.length
decreasing_by
  simp only [List.length_drop]
  have : 0 < l.length := List.length_pos.mpr h
  omega

/-- The function σ0 of the message schedule. -/
def s0 (x : Nat) : Nat := rotr x 7 ^^^ rotr x 18 ^^^ (x >>> 3)

/-- The function σ1 of the message schedule. -/
def s1 (x : Nat) : Nat := rotr x 17 ^^^ rotr x 19 ^^^ (x >>> 10)

/-- Extend the schedule by `n` further words. -/
def extendWords : Nat → List Nat → List Nat
  | 0, ws => ws
  | n + 1, ws =>
    let k := ws.length
    let w := w32 (ws.getD (k - 16) 0 + s0 (ws.getD (k - 15) 0) +
                  ws.getD (k - 7) 0 + s1 (ws.getD (k - 2) 0))
    extendWords n (ws ++ [w])

/-- The 64-word message schedule of one chunk. -/
def schedule (chunk : List Nat) : List Nat := extendWords 48 (toWords chunk)

/-- One compression round on the eight working registers. -/
def round (st : List Nat) (k w : Nat) : List Nat :=
  match st with
  | [a, b, c, d, e, f, g, h] =>
    let bigS1 := rotr e 6 ^^^ rotr e 11 ^^^ rotr e 25
    let ch := (e &&& f) ^^^ ((e ^^^ 0xffffffff) &&& g)
    let temp1 := w32 (h + bigS1 + ch + k + w)
    let bigS0 := rotr a 2 ^^^ rotr a 13 ^^^ rotr a 22
    let maj := (a &&& b) ^^^ (a &&& c) ^^^ (b &&& c)
    let temp2 := w32 (bigS0 + maj)
    [w32 (temp1 + temp2), a, b, c, w32 (d + temp1), e, f, g]
  | _ => st

/-- Compress one 64-byte chunk into the running hash value. -/
def processChunk (H : List Nat) (chunk : List Nat) : List Nat :=
  let st := (K.zip (schedule chunk)).foldl (fun st kw => round st kw.1 kw.2) H
  (H.zip st).map (fun p => w32 (p.1 + p.2))

/-- The SHA-256 digest of a byte sequence, as eight 32-bit words. -/
def digest (msg : List Nat) : List Nat := (chunks (pad msg)).foldl processChunk H0

/-- A lowercase hex digit. -/
def hexDigit (n : Nat) : Char := if n < 10 then Char.ofNat (48 + n) else Char.ofNat (87 + n)

/-- A 32-bit word as 8 lowercase hex characters. -/
def hexWord (w : Nat) : String :=
  String.mk ((List.range 8).map (fun i => hexDigit ((w >>> ((7 - i) * 4)) % 16)))

/-- The value of `fmt.Sprintf` applied with verb x to `sha256.Sum256(msg)`. -/
def sumHex (msg : List Nat) : String := String.join ((digest msg).map hexWord)

end SHA256

/-- The UTF-8 bytes of a string (Go's `[]byte(s)` conversion). -/
def stringBytes (s : String) : List Nat := s.toUTF8.toList.map (fun b => b.toNat)

/-! ## The snapshot data model (`pkg/resource/deploy/snapshot.go`) -/

/-- A resource URN (`resource.URN` is a string type). -/
abbrev URN := String

/-- Modelled from the spec: `resource.ResourceStatus` is not under `src/`
(only `snapshot.go` uses it there).  Per §3 of the spec, "Status: one of
{Unspecified, Created/Live, Deleted}". -/
inductive ResourceStatus where
  | unspecified
  | created
  | deleted
deriving DecidableEq, Repr

/-- Modelled from the spec: `ResourceStatus.Live()` is not under `src/`.
Per the spec, a live resource is one "successfully created/updated and not
deleted", so of the three statuses exactly `created` is live. -/
def ResourceStatus.Live : ResourceStatus → Bool
  | .created => true
  | _ => false

/-- Modelled from the spec: `resource.State` is not under `src/`.  The fields
are those `snapshot.go` reads (`URN`, `Parent`, `Dependencies`, `Status`)
together with the identity/property fields of §3 of the spec, so that a deep
copy of a state is observable.  As in the source, an absent parent is the
empty URN (`if par := state.Parent; par != ""`). -/
structure State where
  urn : URN
  Parent : URN := ""
  Dependencies : List URN := []
  Status : ResourceStatus := .created
  ID : String := ""
  Inputs : List (String × String) := []
  Outputs : List (String × String) := []
deriving DecidableEq, Repr

instance : Inhabited State := ⟨{ urn := "" }⟩

/-- A `Manifest` captures versions for all binaries used to construct this
snapshot.  `time.Time` is embedded as an opaque tick count and
`workspace.PluginInfo` entries as opaque strings; `NewMagic` and
`VerifyIntegrity` read neither. -/
structure Manifest where
  Time : Nat := 0
  Magic : String := ""
  Version : String := ""
  Plugins : List String := []
deriving DecidableEq, Repr

/-- The Go zero value of `Manifest` (what `var newSnap Snapshot` leaves in
`newSnap.Manifest`). -/
def Manifest.zero : Manifest := {}

/-- The method `NewMagic` creates a magic cookie out of a manifest; this can be used to
check for tampering.  It ignores any existing magic value already stored on
the manifest (it reads only `m.Version`). -/
def Manifest.NewMagic (m : Manifest) : String :=
  if m.Version = "" then "" else SHA256.sumHex (stringBytes m.Version)

/-- A `Snapshot` is a view of a collection of resources in a stack at a point
in time.  `Resources` holds the resource states in sequence (`[]*resource.State`;
the pointer indirection is modelled separately by the heap model below, which
`Clone`'s independence property needs). -/
structure Snapshot where
  Stack : String
  Manifest : Manifest
  Resources : List State
deriving DecidableEq, Repr

/-- The errors `VerifyIntegrity` can produce, one constructor per
`errors.Errorf` site, carrying the values interpolated into the message. -/
inductive VerifyError where
  /-- "magic cookie mismatch; possible tampering/corruption detected" -/
  | magicMismatch
  /-- "child resource %s's parent %s comes after it" -/
  | parentComesAfter (child parent : URN)
  /-- "child resource %s refers to missing parent %s" -/
  | missingParent (child parent : URN)
  /-- "resource %s's dependency %s comes after it" -/
  | depComesAfter (res dep : URN)
  /-- "resource %s dependency %s refers to missing resource" -/
  | missingDependency (res dep : URN)
  /-- "resource %s has status `unspecified`" -/
  | statusUnspecified (res : URN)
  /-- "resource %s has status `deleted`" -/
  | statusDeleted (res : URN)
  /-- "duplicate live resource %s, with status %s" -/
  | duplicateLive (res : URN) (status : ResourceStatus)
deriving DecidableEq, Repr

/-- The URN of the resource a `VerifyError` describes (the first URN
interpolated into its message); the magic-cookie error describes none. -/
def VerifyError.resURN : VerifyError → Option URN
  | .magicMismatch => none
  | .parentComesAfter c _ => some c
  | .missingParent c _ => some c
  | .depComesAfter r _ => some r
  | .missingDependency r _ => some r
  | .statusUnspecified r => some r
  | .statusDeleted r => some r
  | .duplicateLive r _ => some r

/-- The inner `for _, dep := range state.Dependencies` loop of
`VerifyIntegrity`: the first dependency absent from `urns` produces an error,
distinguished by whether that dependency occurs later in the snapshot
(`snap.Resources[i+1:]`, passed here as `rest`). -/
def firstDepError (urn : URN) (deps : List URN) (urns : List (URN × State))
    (rest : List State) : Option VerifyError :=
  match deps with
  | [] => none
  | dep :: ds =>
    if mapGet urns dep = none then
      if rest.any (fun o => o.urn = dep) then some (.depComesAfter urn dep)
      else some (.missingDependency urn dep)
    else firstDepError urn ds urns rest

/-- The body of `VerifyIntegrity`'s `for i, state := range snap.Resources`
loop for one resource, up to the point where `urns` and `seenLive` are
updated: the parent check, the dependency checks, the two status checks and
the duplicate-live check, in source order.  `rest` is `snap.Resources[i+1:]`. -/
def checkOne (state : State) (rest : List State) (urns : List (URN × State))
    (seenLive : List (URN × Bool)) : Option VerifyError :=
  if state.Parent ≠ "" ∧ mapGet urns state.Parent = none then
    if rest.any (fun o => o.urn = state.Parent) then
      some (.parentComesAfter state.urn state.Parent)
    else some (.missingParent state.urn state.Parent)
  else
    match firstDepError state.urn state.Dependencies urns rest with
    | some e => some e
    | none =>
      if state.Status = .unspecified then some (.statusUnspecified state.urn)
      else if state.Status = .deleted then some (.statusDeleted state.urn)
      else if mapGet seenLive state.urn = some true ∧ state.Status.Live then
        some (.duplicateLive state.urn state.Status)
      else none

/-- The `seenLive` update at the end of the loop body (lines 119–123 of
`snapshot.go`): first occurrence records the state's liveness, later
occurrences OR it in. -/
def updateSeen (seenLive : List (URN × Bool)) (state : State) : List (URN × Bool) :=
  match mapGet seenLive state.urn with
  | none => mapSet seenLive state.urn state.Status.Live
  | some old => mapSet seenLive state.urn (old || state.Status.Live)

/-- The resource loop of `VerifyIntegrity`: check each state in order against
the accumulated `urns` and `seenLive` maps, stopping at the first error. -/
def verifyResources (resources : List State) (urns : List (URN × State))
    (seenLive : List (URN × Bool)) : Option VerifyError :=
  match resources with
  | [] => none
  | state :: rest =>
    match checkOne state rest urns seenLive with
    | some e => some e
    | none => verifyResources rest (mapSet urns state.urn state) (updateSeen seenLive state)

/-- The method `VerifyIntegrity` checks a snapshot to ensure it is well-formed: the
magic cookie must check out, and then the resources are verified in sequence
(snapshots are values here, so the `snap != nil` contract precondition is
inherently satisfied).  `none` is the `nil` error. -/
def Snapshot.VerifyIntegrity (snap : Snapshot) : Option VerifyError :=
  if snap.Manifest.Magic ≠ snap.Manifest.NewMagic then some .magicMismatch
  else verifyResources snap.Resources [] []

/-- Modelled from the spec: `resource.State.Clone()` is not under `src/`.
Per §4.1 of the spec a clone is "a fully independent deep copy", so it
preserves every field; independence of storage is captured by the heap model
below. -/
def State.Clone (s : State) : State := s

/-- The method `Snapshot.Clone` as written in the source: copies `Stack`, rebuilds
`Resources` from clones of each state, and leaves `Manifest` at the zero
value that `var newSnap Snapshot` declared it with. -/
def Snapshot.Clone (snap : Snapshot) : Snapshot :=
  { Stack := snap.Stack
    Manifest := Manifest.zero
    Resources := snap.Resources.map State.Clone }

/-! ## The memory-level view of `Clone`

In Go, `Snapshot.Resources` is `[]*resource.State`: a slice of pointers.
"No shared backing storage" is a statement about those pointers, so the
clone operation is also embedded at the memory level: a heap of state cells
indexed by address, on which `res.Clone()` allocates a fresh cell. -/

/-- A heap of resource-state cells; an address is an index into the list and
allocation appends a cell at the end. -/
abbrev Heap := List State

/-- Dereference an address. -/
def Heap.read (h : Heap) (a : Nat) : State := h.getD a default

/-- Overwrite the cell at an address (mutation of `*a`). -/
def Heap.write (h : Heap) (a : Nat) (s : State) : Heap := h.set a s

/-- A snapshot whose `Resources` slice holds pointers (heap addresses), as
the Go value does. -/
structure SnapshotRef where
  Stack : String
  Manifest : Manifest
  Resources : List Nat

/-- All resource pointers of a snapshot reference are valid on a heap. -/
def SnapshotRef.wf (h : Heap) (snap : SnapshotRef) : Prop :=
  ∀ a ∈ snap.Resources, a < h.length

/-- The sequence of resource-state values a snapshot reference denotes. -/
def SnapshotRef.states (h : Heap) (snap : SnapshotRef) : List State :=
  snap.Resources.map (fun a => h.read a)

/-- The `newSnap.Resources = append(newSnap.Resources, res.Clone())` loop of
`Snapshot.Clone` at the memory level: each resource cell is read and a fresh
cell holding its deep copy is allocated. -/
def cloneResources (h : Heap) (addrs : List Nat) : Heap × List Nat :=
  match addrs with
  | [] => (h, [])
  | a :: rest =>
    let h' := h ++ [(h.read a).Clone]
    let (h'', rest') := cloneResources h' rest
    (h'', h.length :: rest')

/-- The method `Snapshot.Clone` at the memory level: `Stack` is copied, `Manifest` is
left at the zero value, and every resource state is copied into freshly
allocated cells. -/
def SnapshotRef.Clone (h : Heap) (snap : SnapshotRef) : Heap × SnapshotRef :=
  let (h', addrs) := cloneResources h snap.Resources
  (h', { Stack := snap.Stack, Manifest := Manifest.zero, Resources := addrs })

/-! ## The preview / confirm / apply orchestrator (`pkg/backend/apply.go`)

The orchestrator is interactive and invokes an externally supplied `Applier`.
Its embedding abstracts the parts that are pure plumbing for the claims: the
`context.Context`, the `Stack`, and the engine-event channel (consumed only
by the diff display) are dropped, the user's successive answers to the
confirmation prompt are an explicit input list, and every invocation of the
applier is recorded in an explicit call log (the observable the claims are
about). -/

/-- The kind `apitype.UpdateKind` of an update, with the six kinds of `updateTextMap`. -/
inductive UpdateKind where
  | previewUpdate
  | updateUpdate
  | refreshUpdate
  | destroyUpdate
  | stackImportUpdate
  | resourceImportUpdate
deriving DecidableEq, Repr

/-- Modelled from the spec: `deploy.Plan` is not under `src/`.  Per §3 of the
spec a plan is "the full ordered/partially-ordered set of Steps plus
bookkeeping"; the steps are represented by opaque descriptors, which is all
the orchestrator claims observe of a plan. -/
structure Plan where
  steps : List String
deriving DecidableEq, Repr

/-- Modelled from the spec: `deploy.Plan.Clone()` is not under `src/`.
Per §4.4 of the spec it returns a deep clone of the plan: an equal value in
fresh storage (plan values being embedded purely, in-place mutation of the
original is threaded explicitly by `PreviewThenPromptThenExecute` below, so
the clone's independence is that the mutation does not apply to it). -/
def Plan.Clone (p : Plan) : Plan := p

/-- Modelled from the spec: `util/result.Result` is not under `src/`.  The
non-`nil` results the orchestrator produces are `result.Bail()` ("not an
error; a normal 'bail' outcome") and `result.FromError`; a `nil` result is
`Option.none` at use sites. -/
inductive UpdateResult where
  | bail
  | fromError (msg : String)
deriving DecidableEq, Repr

/-- The summary `sdkDisplay.ResourceChanges` (a map from operation kind to count),
opaque to the orchestrator. -/
abbrev ResourceChanges := List (String × Nat)

/-- An `ApplierOptions` is a bag of configuration settings for an `Applier`. -/
structure ApplierOptions where
  DryRun : Bool
  ShowLink : Bool
deriving DecidableEq, Repr

/-- The engine options the orchestrator reads and writes
(`op.Opts.Engine.Plan`, `.Experimental`, `.GeneratePlan`). -/
structure EngineOptions where
  Plan : Option Plan := none
  Experimental : Bool := false
  GeneratePlan : Bool := false
deriving DecidableEq, Repr

/-- The update options the orchestrator reads (`op.Opts`); display options
are dropped (colour only). -/
structure UpdateOptions where
  AutoApprove : Bool := false
  SkipPreview : Bool := false
  Engine : EngineOptions := {}
deriving DecidableEq, Repr

/-- An `UpdateOperation`, restricted to the options the orchestrator uses. -/
structure UpdateOperation where
  Opts : UpdateOptions
deriving DecidableEq, Repr

/-- The `response` constants of `apply.go` (`yes`, `no`, `details`). -/
inductive Response where
  | yes
  | no
  | details
deriving DecidableEq, Repr

/-- One invocation of the applier: the kind, the operation value passed
(including the plan in `op.Opts.Engine.Plan`), and the applier options. -/
structure ApplyCall where
  kind : UpdateKind
  op : UpdateOperation
  opts : ApplierOptions
deriving DecidableEq, Repr

/-- The behaviour of an externally supplied `Applier` (implementations live
outside `src/`).  `ret` is the returned triple `(plan, changes, res)` as a
function of the arguments the orchestrator varies; `mutate` is the in-place
mutation a run performs on the plan object handed to it via
`op.Opts.Engine.Plan` ("plans are mutated as they're checked"). -/
structure Applier where
  ret : UpdateKind → UpdateOperation → ApplierOptions →
    Option Plan × ResourceChanges × Option UpdateResult
  mutate : Plan → Plan

/-- The option list offered by the confirmation prompt: `yes`, `no`, and —
for non-previews (`!opts.SkipPreview`) — `details`. -/
def promptChoices (opts : UpdateOptions) : List String :=
  ["yes", "no"] ++ (if !opts.SkipPreview then ["details"] else [])

/-- The function `confirmBeforeUpdating` asks the user whether to proceed; a `none`
result means yes.  `input` is the sequence of answers the user gives to the
successive prompts of the `for` loop; an exhausted input is `survey.AskOne`
failing (stdin closed / interrupted), which the source wraps in
"confirmation cancelled" (`result.FromError`).  `no` prints a notice and
bails; `details` prints the diff and re-prompts. -/
def confirmBeforeUpdating (kind : UpdateKind) (input : List Response)
    (opts : UpdateOptions) : Option UpdateResult :=
  match input with
  | [] => some (.fromError "confirmation cancelled, not proceeding")
  | r :: rest =>
    match r with
    | .no => some .bail
    | .yes => none
    | .details => confirmBeforeUpdating kind rest opts

/-- What `PreviewThenPrompt` produces: the preview's returned plan, changes
and result, plus the call log and whether the confirmation prompt was
reached. -/
structure PromptOutcome where
  plan : Option Plan
  changes : ResourceChanges
  res : Option UpdateResult
  calls : List ApplyCall
  prompted : Bool
deriving DecidableEq, Repr

/-- The function `PreviewThenPrompt`: run the applier once with `DryRun: true`; on a
non-`nil` result return it; skip the confirmation prompt when auto-approving
or when the kind is `PreviewUpdate`; otherwise ask the user.  (The
events channel, the info message about empty stacks and the diff display are
rendering only and are not part of the embedding.) -/
def PreviewThenPrompt (kind : UpdateKind) (op : UpdateOperation) (ap : Applier)
    (input : List Response) : PromptOutcome :=
  let opts : ApplierOptions := { DryRun := true, ShowLink := true }
  let (plan, changes, res) := ap.ret kind op opts
  let call : ApplyCall := { kind := kind, op := op, opts := opts }
  match res with
  | some r => { plan := plan, changes := changes, res := some r, calls := [call], prompted := false }
  | none =>
    if op.Opts.AutoApprove || kind = .previewUpdate then
      { plan := plan, changes := changes, res := none, calls := [call], prompted := false }
    else
      { plan := plan, changes := changes, res := confirmBeforeUpdating kind input op.Opts,
        calls := [call], prompted := true }

/-- What `PreviewThenPromptThenExecute` produces: the changes and result it
returns, plus the call log and whether the user was prompted. -/
structure ExecOutcome where
  changes : ResourceChanges
  res : Option UpdateResult
  calls : List ApplyCall
  prompted : Bool
deriving DecidableEq, Repr

/-- Write `op.Opts.Engine.Plan`. -/
def UpdateOperation.withPlan (op : UpdateOperation) (p : Option Plan) : UpdateOperation :=
  { op with Opts := { op.Opts with Engine := { op.Opts.Engine with Plan := p } } }

/-- Write `op.Opts.Engine.GeneratePlan`. -/
def UpdateOperation.withGeneratePlan (op : UpdateOperation) (b : Bool) : UpdateOperation :=
  { op with Opts := { op.Opts with Engine := { op.Opts.Engine with GeneratePlan := b } } }

/-- The function `PreviewThenPromptThenExecute`: unless the preview is skipped, clone the
supplied plan, preview-and-prompt, and return early on a non-`nil` result or
a `PreviewUpdate` kind; then run the applier for real (`DryRun: false`) with
`op.Opts.Engine.Plan` rewritten to the pre-preview clone (or to the
preview's plan under `Experimental`, or to `nil`) and `GeneratePlan` off.
The plan object in `op` was handed to the preview run, which mutates it in
place; that mutated value (`ap.mutate`) is what `op.Opts.Engine.Plan` holds
after the preview, before lines 225–231 rewrite the field. -/
def PreviewThenPromptThenExecute (kind : UpdateKind) (op : UpdateOperation)
    (ap : Applier) (input : List Response) : ExecOutcome :=
  let realOpts : ApplierOptions := { DryRun := false, ShowLink := true }
  if op.Opts.SkipPreview then
    let op' := op.withGeneratePlan false
    let (_, changes, res) := ap.ret kind op' realOpts
    { changes := changes, res := res, calls := [⟨kind, op', realOpts⟩], prompted := false }
  else
    let originalPlan : Option Plan := op.Opts.Engine.Plan.map Plan.Clone
    let pr := PreviewThenPrompt kind op ap input
    if pr.res.isSome || kind = .previewUpdate then
      { changes := pr.changes, res := pr.res, calls := pr.calls, prompted := pr.prompted }
    else
      let opMut := op.withPlan (op.Opts.Engine.Plan.map ap.mutate)
      let op2 :=
        match originalPlan with
        | some p => opMut.withPlan (some p)
        | none =>
          if op.Opts.Engine.Experimental then opMut.withPlan pr.plan
          else opMut.withPlan none
      let op3 := op2.withGeneratePlan false
      let (_, changes, res) := ap.ret kind op3 realOpts
      { changes := changes, res := res, calls := pr.calls ++ [⟨kind, op3, realOpts⟩],
        prompted := pr.prompted }

/-! ## Derived notions used by the claims -/

/-- The number of live resources with a given URN in a resource sequence. -/
def liveCount (u : URN) (resources : List State) : Nat :=
  (resources.filter (fun s => s.urn == u && s.Status.Live)).length

/-- The `urns` map after processing a prefix of the resource sequence. -/
def urnsAfter (urns : List (URN × State)) (states : List State) : List (URN × State) :=
  states.foldl (fun m s => mapSet m s.urn s) urns

/-- The `seenLive` map after processing a prefix of the resource sequence. -/
def seenAfter (seenLive : List (URN × Bool)) (states : List State) : List (URN × Bool) :=
  states.foldl updateSeen seenLive

/-! ## Inversion lemmas for the per-resource checks -/

theorem firstDepError_eq_none {urn : URN} {deps : List URN} {urns : List (URN × State)}
    {rest : List State} :
    firstDepError urn deps urns rest = none ↔ ∀ d ∈ deps, mapGet urns d ≠ none := by
  induction deps with
  | nil => simp [firstDepError]
  | cons dep ds ih =>
    by_cases hd : mapGet urns dep = none
    · constructor
      · intro h
        rw [firstDepError, if_pos hd] at h
        split at h <;> exact absurd h (by simp)
      · intro h
        exact absurd hd (h dep (by simp))
    · rw [firstDepError, if_neg hd, ih]
      constructor
      · intro h d hdmem
        rcases List.mem_cons.mp hdmem with h1 | h1
        · subst h1; exact hd
        · exact h d h1
      · intro h d hdmem
        exact h d (List.mem_cons_of_mem _ hdmem)

theorem firstDepError_some {urn : URN} {deps : List URN} {urns : List (URN × State)}
    {rest : List State} {e : VerifyError} (h : firstDepError urn deps urns rest = some e) :
    (∃ d ∈ deps, mapGet urns d = none) ∧
    (∃ d, e = .depComesAfter urn d ∨ e = .missingDependency urn d) := by
  induction deps with
  | nil => simp [firstDepError] at h
  | cons dep ds ih =>
    by_cases hd : mapGet urns dep = none
    · rw [firstDepError, if_pos hd] at h
      refine ⟨⟨dep, by simp, hd⟩, ⟨dep, ?_⟩⟩
      split at h
      · exact Or.inl (Option.some.inj h).symm
      · exact Or.inr (Option.some.inj h).symm
    · rw [firstDepError, if_neg hd] at h
      obtain ⟨⟨d, hdm, hdn⟩, he⟩ := ih h
      exact ⟨⟨d, List.mem_cons_of_mem _ hdm, hdn⟩, he⟩

theorem checkOne_eq_none {s : State} {rest : List State} {urns : List (URN × State)}
    {seen : List (URN × Bool)} :
    checkOne s rest urns seen = none ↔
      (s.Parent = "" ∨ mapGet urns s.Parent ≠ none) ∧
      (∀ d ∈ s.Dependencies, mapGet urns d ≠ none) ∧
      s.Status ≠ .unspecified ∧ s.Status ≠ .deleted ∧
      ¬(mapGet seen s.urn = some true ∧ s.Status.Live = true) := by
  by_cases hp : s.Parent ≠ "" ∧ mapGet urns s.Parent = none
  · rw [checkOne, if_pos hp]
    constructor
    · intro h; split at h <;> exact absurd h (by simp)
    · rintro ⟨h1, -⟩
      rcases h1 with h1 | h1
      · exact absurd h1 hp.1
      · exact absurd hp.2 h1
  · rw [checkOne, if_neg hp]
    have hpar : s.Parent = "" ∨ mapGet urns s.Parent ≠ none := by
      by_cases hpe : s.Parent = ""
      · exact Or.inl hpe
      · refine Or.inr fun hn => hp ⟨hpe, hn⟩
    cases hd : firstDepError s.urn s.Dependencies urns rest with
    | some e =>
      simp only []
      constructor
      · intro h; exact absurd h (by simp)
      · rintro ⟨-, hdeps, -⟩
        obtain ⟨⟨d, hdm, hdn⟩, -⟩ := firstDepError_some hd
        exact absurd hdn (hdeps d hdm)
    | none =>
      have hdeps := firstDepError_eq_none.mp hd
      by_cases h1 : s.Status = .unspecified
      · simp [h1]
      · by_cases h2 : s.Status = .deleted
        · simp [h1, h2]
        · by_cases h3 : mapGet seen s.urn = some true ∧ s.Status.Live = true
          · simp [h1, h2, h3]
          · simp [h1, h2, h3, hpar]
            exact hdeps

theorem checkOne_some {s : State} {rest : List State} {urns : List (URN × State)}
    {seen : List (URN × Bool)} {e : VerifyError} (h : checkOne s rest urns seen = some e) :
    e.resURN = some s.urn ∧ e ≠ .magicMismatch ∧
    (∀ u, e = .statusUnspecified u → s.Status = .unspecified) ∧
    (∀ u, e = .statusDeleted u → s.Status = .deleted) ∧
    (∀ u st, e = .duplicateLive u st →
      mapGet seen s.urn = some true ∧ s.Status.Live = true ∧ u = s.urn ∧ st = s.Status) := by
  by_cases hp : s.Parent ≠ "" ∧ mapGet urns s.Parent = none
  · rw [checkOne, if_pos hp] at h
    split at h <;>
      (replace h := (Option.some.inj h).symm; subst h; simp [VerifyError.resURN])
  · rw [checkOne, if_neg hp] at h
    cases hd : firstDepError s.urn s.Dependencies urns rest with
    | some e' =>
      rw [hd] at h
      replace h : e' = e := Option.some.inj h
      subst h
      obtain ⟨-, d, hcase⟩ := firstDepError_some hd
      rcases hcase with hcase | hcase <;> subst hcase <;> simp [VerifyError.resURN]
    | none =>
      rw [hd] at h
      by_cases h1 : s.Status = .unspecified
      · rw [if_pos h1] at h
        replace h := (Option.some.inj h).symm; subst h
        simp [VerifyError.resURN, h1]
      · rw [if_neg h1] at h
        by_cases h2 : s.Status = .deleted
        · rw [if_pos h2] at h
          replace h := (Option.some.inj h).symm; subst h
          simp [VerifyError.resURN, h2]
        · rw [if_neg h2] at h
          by_cases h3 : mapGet seen s.urn = some true ∧ s.Status.Live = true
          · rw [if_pos h3] at h
            replace h := (Option.some.inj h).symm; subst h
            simp [VerifyError.resURN, h3]
          · rw [if_neg h3] at h
            exact absurd h (by simp)

theorem mapGet_updateSeen (seen : List (URN × Bool)) (s : State) (u : URN) :
    mapGet (updateSeen seen s) u =
      if u = s.urn then some ((mapGet seen s.urn).getD false || s.Status.Live)
      else mapGet seen u := by
  unfold updateSeen
  cases h : mapGet seen s.urn <;> simp [mapGet_mapSet, h]

/-! ## Structure lemmas for the resource loop -/

theorem verifyResources_cons (s : State) (rest : List State) (urns : List (URN × State))
    (seen : List (URN × Bool)) :
    verifyResources (s :: rest) urns seen =
      match checkOne s rest urns seen with
      | some e => some e
      | none => verifyResources rest (mapSet urns s.urn s) (updateSeen seen s) := rfl

/-- If the loop finishes cleanly, every resource's non-empty parent and every
dependency is either already in the incoming `urns` map or the URN of a
strictly earlier resource of the list. -/
theorem verifyResources_none_topo :
    ∀ (rs : List State) (urns : List (URN × State)) (seen : List (URN × Bool)),
      verifyResources rs urns seen = none →
      ∀ i (hi : i < rs.length),
        ((rs.get ⟨i, hi⟩).Parent ≠ "" →
          mapGet urns (rs.get ⟨i, hi⟩).Parent ≠ none ∨
            (rs.get ⟨i, hi⟩).Parent ∈ (rs.take i).map State.urn) ∧
        (∀ d ∈ (rs.get ⟨i, hi⟩).Dependencies,
          mapGet urns d ≠ none ∨ d ∈ (rs.take i).map State.urn) := by
  intro rs
  induction rs with
  | nil => intro urns seen _ i hi; exact absurd hi (by simp)
  | cons s rest ih =>
    intro urns seen h i hi
    rw [verifyResources_cons] at h
    cases hc : checkOne s rest urns seen with
    | some e => rw [hc] at h; exact absurd h (by simp)
    | none =>
      rw [hc] at h
      have hnone := checkOne_eq_none.mp hc
      have key : ∀ (X : URN) (l : List URN),
          (mapGet (mapSet urns s.urn s) X ≠ none ∨ X ∈ l) →
          mapGet urns X ≠ none ∨ X = s.urn ∨ X ∈ l := by
        intro X l hX
        rcases hX with hX | hX
        · rw [mapGet_mapSet] at hX
          by_cases hXs : X = s.urn
          · exact Or.inr (Or.inl hXs)
          · rw [if_neg hXs] at hX; exact Or.inl hX
        · exact Or.inr (Or.inr hX)
      cases i with
      | zero =>
        simp only [List.get_cons_zero, List.take_zero, List.map_nil]
        constructor
        · intro hpar
          rcases hnone.1 with h1 | h1
          · exact absurd h1 hpar
          · exact Or.inl h1
        · intro d hd
          exact Or.inl (hnone.2.1 d hd)
      | succ i =>
        have hi' : i < rest.length := by simpa using hi
        have hrec := ih (mapSet urns s.urn s) (updateSeen seen s) h i hi'
        simp only [List.get_cons_succ, List.take_succ_cons, List.map_cons, List.mem_cons]
        constructor
        · intro hpar
          have := key _ _ (hrec.1 hpar)
          tauto
        · intro d hd
          have := key _ _ (hrec.2 d hd)
          tauto

/-- If the loop finishes cleanly, no resource of the list has status
`unspecified` or `deleted`. -/
theorem verifyResources_none_status :
    ∀ (rs : List State) (urns : List (URN × State)) (seen : List (URN × Bool)),
      verifyResources rs urns seen = none →
      ∀ s ∈ rs, s.Status ≠ .unspecified ∧ s.Status ≠ .deleted := by
  intro rs
  induction rs with
  | nil => intro urns seen _ s hs; exact absurd hs (by simp)
  | cons s0 rest ih =>
    intro urns seen h s hs
    rw [verifyResources_cons] at h
    cases hc : checkOne s0 rest urns seen with
    | some e => rw [hc] at h; exact absurd h (by simp)
    | none =>
      rw [hc] at h
      rcases List.mem_cons.mp hs with hs | hs
      · subst hs
        have hnone := checkOne_eq_none.mp hc
        exact ⟨hnone.2.2.1, hnone.2.2.2.1⟩
      · exact ih _ _ h s hs

/-- The resource loop never produces the magic-cookie error. -/
theorem verifyResources_ne_magic :
    ∀ (rs : List State) (urns : List (URN × State)) (seen : List (URN × Bool)),
      verifyResources rs urns seen ≠ some .magicMismatch := by
  intro rs
  induction rs with
  | nil => intro urns seen h; simp [verifyResources] at h
  | cons s rest ih =>
    intro urns seen h
    rw [verifyResources_cons] at h
    cases hc : checkOne s rest urns seen with
    | some e =>
      rw [hc] at h
      exact absurd (Option.some.inj h) (checkOne_some hc).2.1
    | none =>
      rw [hc] at h
      exact ih _ _ h

/-- A status error from the loop names an actual status violation in the
list. -/
theorem verifyResources_status_some :
    ∀ (rs : List State) (urns : List (URN × State)) (seen : List (URN × Bool)) (u : URN),
      (verifyResources rs urns seen = some (.statusUnspecified u) →
        ∃ s ∈ rs, s.Status = .unspecified) ∧
      (verifyResources rs urns seen = some (.statusDeleted u) →
        ∃ s ∈ rs, s.Status = .deleted) := by
  intro rs
  induction rs with
  | nil => intro urns seen u; constructor <;> (intro h; simp [verifyResources] at h)
  | cons s0 rest ih =>
    intro urns seen u
    constructor
    · intro h
      rw [verifyResources_cons] at h
      cases hc : checkOne s0 rest urns seen with
      | some e =>
        rw [hc] at h
        exact ⟨s0, by simp, (checkOne_some hc).2.2.1 u (Option.some.inj h)⟩
      | none =>
        rw [hc] at h
        obtain ⟨s, hs, hstat⟩ := (ih _ _ u).1 h
        exact ⟨s, List.mem_cons_of_mem _ hs, hstat⟩
    · intro h
      rw [verifyResources_cons] at h
      cases hc : checkOne s0 rest urns seen with
      | some e =>
        rw [hc] at h
        exact ⟨s0, by simp, (checkOne_some hc).2.2.2.1 u (Option.some.inj h)⟩
      | none =>
        rw [hc] at h
        obtain ⟨s, hs, hstat⟩ := (ih _ _ u).2 h
        exact ⟨s, List.mem_cons_of_mem _ hs, hstat⟩

theorem liveCount_nil (u : URN) : liveCount u [] = 0 := rfl

theorem liveCount_cons (u : URN) (s : State) (rest : List State) :
    liveCount u (s :: rest) =
      liveCount u rest + (if s.urn = u ∧ s.Status.Live = true then 1 else 0) := by
  unfold liveCount
  rw [List.filter_cons]
  by_cases h : (s.urn == u && s.Status.Live) = true
  · rw [if_pos h, List.length_cons]
    have h2 : s.urn = u ∧ s.Status.Live = true := by simpa using h
    rw [if_pos h2]
  · rw [if_neg h]
    have h2 : ¬(s.urn = u ∧ s.Status.Live = true) := by
      intro hh
      exact h (by simp [hh.1, hh.2])
    rw [if_neg h2, Nat.add_zero]

theorem liveCount_le_cons (u : URN) (s : State) (rest : List State) :
    liveCount u rest ≤ liveCount u (s :: rest) := by
  rw [liveCount_cons]
  exact Nat.le_add_right _ _

/-- If the loop finishes cleanly then, for every URN, a URN already recorded
live in `seenLive` has no further live occurrence, and every URN has at most
one live occurrence in the remaining list. -/
theorem verifyResources_none_liveCount :
    ∀ (rs : List State) (urns : List (URN × State)) (seen : List (URN × Bool)),
      verifyResources rs urns seen = none →
      ∀ u, (mapGet seen u = some true → liveCount u rs = 0) ∧ liveCount u rs ≤ 1 := by
  intro rs
  induction rs with
  | nil =>
    intro urns seen _ u
    exact ⟨fun _ => rfl, by rw [liveCount_nil]; omega⟩
  | cons s rest ih =>
    intro urns seen h u
    rw [verifyResources_cons] at h
    cases hc : checkOne s rest urns seen with
    | some e => rw [hc] at h; exact absurd h (by simp)
    | none =>
      rw [hc] at h
      have hrec := ih _ _ h
      have hdup : ¬(mapGet seen s.urn = some true ∧ s.Status.Live = true) :=
        (checkOne_eq_none.mp hc).2.2.2.2
      by_cases hu : u = s.urn
      · by_cases hl : s.Status.Live = true
        · have hseen : mapGet seen u ≠ some true := by
            rw [hu]; exact fun hh => hdup ⟨hh, hl⟩
          have hseen' : mapGet (updateSeen seen s) u = some true := by
            rw [mapGet_updateSeen, if_pos hu, hl]
            simp
          have h0 : liveCount u rest = 0 := (hrec u).1 hseen'
          constructor
          · intro hcontra; exact absurd hcontra hseen
          · rw [liveCount_cons, h0, if_pos ⟨hu.symm, hl⟩]
        · have hif : ¬(s.urn = u ∧ s.Status.Live = true) := fun hh => hl hh.2
          constructor
          · intro hseen
            have hseen' : mapGet (updateSeen seen s) u = some true := by
              rw [mapGet_updateSeen, if_pos hu, ← hu, hseen]
              simp
            have h0 := (hrec u).1 hseen'
            rw [liveCount_cons, h0, if_neg hif]
          · have := (hrec u).2
            rw [liveCount_cons, if_neg hif, Nat.add_zero]
            exact this
      · have hif : ¬(s.urn = u ∧ s.Status.Live = true) := fun hh => hu hh.1.symm
        have hseen' : mapGet (updateSeen seen s) u = mapGet seen u := by
          rw [mapGet_updateSeen, if_neg hu]
        constructor
        · intro hseen
          have h0 := (hrec u).1 (by rw [hseen']; exact hseen)
          rw [liveCount_cons, h0, if_neg hif]
        · have := (hrec u).2
          rw [liveCount_cons, if_neg hif, Nat.add_zero]
          exact this

/-- A duplicate-live error from the loop witnesses two live occurrences of
the URN (one, if `seenLive` already recorded a live occurrence before the
list). -/
theorem verifyResources_dup :
    ∀ (rs : List State) (urns : List (URN × State)) (seen : List (URN × Bool))
      (u : URN) (st : ResourceStatus),
      verifyResources rs urns seen = some (.duplicateLive u st) →
      if mapGet seen u = some true then 1 ≤ liveCount u rs else 2 ≤ liveCount u rs := by
  intro rs
  induction rs with
  | nil => intro urns seen u st h; simp [verifyResources] at h
  | cons s rest ih =>
    intro urns seen u st h
    rw [verifyResources_cons] at h
    cases hc : checkOne s rest urns seen with
    | some e =>
      rw [hc] at h
      replace h : e = .duplicateLive u st := Option.some.inj h
      subst h
      obtain ⟨hseen, hlive, huu, -⟩ := (checkOne_some hc).2.2.2.2 u st rfl
      subst huu
      rw [if_pos hseen, liveCount_cons, if_pos ⟨rfl, hlive⟩]
      omega
    | none =>
      rw [hc] at h
      have hrec := ih _ _ u st h
      by_cases hu : mapGet seen u = some true
      · rw [if_pos hu]
        have hseen' : mapGet (updateSeen seen s) u = some true := by
          rw [mapGet_updateSeen]
          by_cases he : u = s.urn
          · rw [if_pos he, ← he, hu]
            simp
          · rw [if_neg he]; exact hu
        rw [if_pos hseen'] at hrec
        exact le_trans hrec (liveCount_le_cons u s rest)
      · rw [if_neg hu]
        by_cases hseen' : mapGet (updateSeen seen s) u = some true
        · rw [if_pos hseen'] at hrec
          rw [mapGet_updateSeen] at hseen'
          by_cases he : u = s.urn
          · rw [if_pos he] at hseen'
            replace hseen' := Option.some.inj hseen'
            have hgd : (mapGet seen s.urn).getD false = false := by
              rw [← he]
              cases hm : mapGet seen u with
              | none => rfl
              | some b =>
                cases b with
                | false => rfl
                | true => exact absurd hm hu
            rw [hgd, Bool.false_or] at hseen'
            rw [liveCount_cons, if_pos ⟨he.symm, hseen'⟩]
            omega
          · rw [if_neg he] at hseen'
            exact absurd hseen' hu
        · rw [if_neg hseen'] at hrec
          exact le_trans hrec (liveCount_le_cons u s rest)

/-- Fail-fast characterization of the loop: a returned error is the error of
the per-resource check at the lowest violating index, all earlier indices
passing their checks against the accumulated maps. -/
theorem verifyResources_some_first :
    ∀ (rs : List State) (urns : List (URN × State)) (seen : List (URN × Bool))
      (e : VerifyError),
      verifyResources rs urns seen = some e →
      ∃ i, ∃ hi : i < rs.length,
        checkOne (rs.get ⟨i, hi⟩) (rs.drop (i + 1)) (urnsAfter urns (rs.take i))
          (seenAfter seen (rs.take i)) = some e ∧
        ∀ j (hj : j < i),
          checkOne (rs.get ⟨j, Nat.lt_trans hj hi⟩) (rs.drop (j + 1))
            (urnsAfter urns (rs.take j)) (seenAfter seen (rs.take j)) = none := by
  intro rs
  induction rs with
  | nil => intro urns seen e h; simp [verifyResources] at h
  | cons s rest ih =>
    intro urns seen e h
    rw [verifyResources_cons] at h
    cases hc : checkOne s rest urns seen with
    | some e' =>
      rw [hc] at h
      replace h : e' = e := Option.some.inj h
      subst h
      refine ⟨0, by simp, ?_, ?_⟩
      · simpa [urnsAfter, seenAfter] using hc
      · intro j hj; omega
    | none =>
      rw [hc] at h
      obtain ⟨i, hi, hchk, hall⟩ := ih _ _ e h
      refine ⟨i + 1, by simpa using Nat.succ_lt_succ hi, ?_, ?_⟩
      · simpa [urnsAfter, seenAfter] using hchk
      · intro j hj
        cases j with
        | zero => simpa [urnsAfter, seenAfter] using hc
        | succ j =>
          have hj' : j < i := Nat.lt_of_succ_lt_succ hj
          simpa [urnsAfter, seenAfter] using hall j hj'

/-! ## Heap lemmas for the memory-level clone -/

theorem Heap.read_append_left (h ext : Heap) (a : Nat) (ha : a < h.length) :
    (h ++ ext).read a = h.read a := by
  simp [Heap.read, List.getD_eq_getElem?_getD, List.getElem?_append_left ha]

theorem Heap.read_write_ne (h : Heap) (a b : Nat) (s : State) (hne : a ≠ b) :
    (h.write a s).read b = h.read b := by
  simp [Heap.read, Heap.write, List.getD_eq_getElem?_getD, List.getElem?_set_ne hne]

/-- Full characterization of the clone loop on a heap all of whose argument
addresses are valid: it appends the (deep-copied) pointed-to states and hands
back the freshly allocated address range. -/
theorem cloneResources_spec :
    ∀ (addrs : List Nat) (h : Heap), (∀ a ∈ addrs, a < h.length) →
      cloneResources h addrs =
        (h ++ addrs.map (fun a => (h.read a).Clone), List.range' h.length addrs.length) := by
  intro addrs
  induction addrs with
  | nil => intro h _; simp [cloneResources]
  | cons a rest ih =>
    intro h hwf
    have ha : a < h.length := hwf a (by simp)
    have hwf' : ∀ b ∈ rest, b < (h ++ [(h.read a).Clone]).length := by
      intro b hb
      have := hwf b (List.mem_cons_of_mem _ hb)
      simp only [List.length_append, List.length_cons, List.length_nil]
      omega
    have hmap : rest.map (fun b => ((h ++ [(h.read a).Clone]).read b).Clone) =
        rest.map (fun b => (h.read b).Clone) := by
      refine List.map_congr_left fun b hb => ?_
      rw [Heap.read_append_left h _ b (hwf b (List.mem_cons_of_mem _ hb))]
    rw [cloneResources, ih _ hwf']
    simp only [hmap, List.map_cons, List.length_cons, List.length_append,
      List.length_nil, List.range'_succ]
    rw [List.append_assoc, Nat.zero_add]
    rfl

/-- Reading back a freshly appended block through its address range yields
exactly the appended values. -/
theorem read_range'_append :
    ∀ (vals : List State) (h : Heap),
      (List.range' h.length vals.length).map (fun a => (h ++ vals).read a) = vals := by
  intro vals
  induction vals with
  | nil => intro h; simp
  | cons v vs ih =>
    intro h
    rw [List.length_cons, List.range'_succ, List.map_cons]
    have hhead : (h ++ v :: vs).read h.length = v := by
      simp [Heap.read, List.getD_eq_getElem?_getD,
        List.getElem?_append_right (le_refl h.length)]
    have happ : h ++ v :: vs = (h ++ [v]) ++ vs := by simp
    have htail := ih (h ++ [v])
    simp only [List.length_append, List.length_singleton] at htail
    rw [hhead, happ, htail]

/-! ## Bridges between loop-level and index-level statements -/

theorem verifyIntegrity_eq_none (snap : Snapshot) :
    snap.VerifyIntegrity = none ↔
      snap.Manifest.Magic = snap.Manifest.NewMagic ∧
      verifyResources snap.Resources [] [] = none := by
  unfold Snapshot.VerifyIntegrity
  by_cases h : snap.Manifest.Magic ≠ snap.Manifest.NewMagic
  · rw [if_pos h]
    simp [h]
  · rw [if_neg h]
    simp [not_not.mp h]

theorem mem_take_map_urn (rs : List State) (i : Nat) (u : URN) :
    u ∈ (rs.take i).map State.urn ↔
      ∃ j, ∃ hj : j < rs.length, j < i ∧ (rs.get ⟨j, hj⟩).urn = u := by
  constructor
  · intro hmem
    obtain ⟨s, hs, hsu⟩ := List.mem_map.mp hmem
    obtain ⟨⟨j, hj⟩, hget⟩ := List.mem_iff_get.mp hs
    have hjlen : j < rs.length := by
      have := hj; rw [List.length_take] at this; omega
    have hji : j < i := by
      have := hj; rw [List.length_take] at this; omega
    refine ⟨j, hjlen, hji, ?_⟩
    have : rs.get ⟨j, hjlen⟩ = s := (List.get_take rs hjlen hji).trans hget
    rw [this]; exact hsu
  · rintro ⟨j, hj, hji, hju⟩
    refine List.mem_map.mpr ⟨rs.get ⟨j, hj⟩, ?_, hju⟩
    have heq := List.get_take rs hj hji
    rw [heq]
    exact List.get_mem _ _ _

/-! ## C1 — topological order of parents and dependencies -/

/-- C1: a snapshot accepted by `VerifyIntegrity` has every resource's
non-empty parent URN and every dependency URN appearing at a strictly lower
index of the resource sequence; conversely (the contrapositive), a snapshot
containing a resource whose parent or dependency does not appear strictly
earlier is rejected with a non-`nil` error. -/
theorem verifyIntegrity_topological_order (snap : Snapshot) :
    (snap.VerifyIntegrity = none →
      ∀ i (hi : i < snap.Resources.length),
        ((snap.Resources.get ⟨i, hi⟩).Parent ≠ "" →
          ∃ j, ∃ hj : j < snap.Resources.length, j < i ∧
            (snap.Resources.get ⟨j, hj⟩).urn = (snap.Resources.get ⟨i, hi⟩).Parent) ∧
        (∀ d ∈ (snap.Resources.get ⟨i, hi⟩).Dependencies,
          ∃ j, ∃ hj : j < snap.Resources.length, j < i ∧
            (snap.Resources.get ⟨j, hj⟩).urn = d)) ∧
    ((∃ i, ∃ hi : i < snap.Resources.length,
        ((snap.Resources.get ⟨i, hi⟩).Parent ≠ "" ∧
          ¬∃ j, ∃ hj : j < snap.Resources.length, j < i ∧
            (snap.Resources.get ⟨j, hj⟩).urn = (snap.Resources.get ⟨i, hi⟩).Parent) ∨
        (∃ d ∈ (snap.Resources.get ⟨i, hi⟩).Dependencies,
          ¬∃ j, ∃ hj : j < snap.Resources.length, j < i ∧
            (snap.Resources.get ⟨j, hj⟩).urn = d)) →
      snap.VerifyIntegrity ≠ none) := by
  have main : snap.VerifyIntegrity = none →
      ∀ i (hi : i < snap.Resources.length),
        ((snap.Resources.get ⟨i, hi⟩).Parent ≠ "" →
          ∃ j, ∃ hj : j < snap.Resources.length, j < i ∧
            (snap.Resources.get ⟨j, hj⟩).urn = (snap.Resources.get ⟨i, hi⟩).Parent) ∧
        (∀ d ∈ (snap.Resources.get ⟨i, hi⟩).Dependencies,
          ∃ j, ∃ hj : j < snap.Resources.length, j < i ∧
            (snap.Resources.get ⟨j, hj⟩).urn = d) := by
    intro h i hi
    have hv : verifyResources snap.Resources [] [] = none :=
      ((verifyIntegrity_eq_none snap).mp h).2
    have htopo := verifyResources_none_topo snap.Resources [] [] hv i hi
    constructor
    · intro hpar
      rcases htopo.1 hpar with h1 | h1
      · exact absurd rfl h1
      · exact (mem_take_map_urn _ _ _).mp h1
    · intro d hd
      rcases htopo.2 d hd with h1 | h1
      · exact absurd rfl h1
      · exact (mem_take_map_urn _ _ _).mp h1
  refine ⟨main, ?_⟩
  rintro ⟨i, hi, hbad⟩ hnone
  have hgood := main hnone i hi
  rcases hbad with ⟨hp, hnj⟩ | ⟨d, hd, hnj⟩
  · exact hnj (hgood.1 hp)
  · exact hnj (hgood.2 d hd)

/-- A two-resource snapshot whose second resource has the first as parent
and dependency; used to instantiate the integrity theorems. -/
def snapTopo : Snapshot :=
  { Stack := "dev"
    Manifest := {}
    Resources := [{ urn := "a" }, { urn := "b", Parent := "a", Dependencies := ["a"] }] }

theorem verifyIntegrity_topological_order_witness :
    snapTopo.VerifyIntegrity = none ∧
    ∃ j, ∃ hj : j < snapTopo.Resources.length, j < 1 ∧
      (snapTopo.Resources.get ⟨j, hj⟩).urn = "a" := by
  refine ⟨by decide, ?_⟩
  have h := (verifyIntegrity_topological_order snapTopo).1 (by decide) 1 (by decide)
  exact h.1 (by decide)

/-! ## C2 — at most one live resource per URN -/

/-- C2: an accepted snapshot has at most one live resource per URN; two or
more live resources with one URN force rejection; and the duplicate-URN
check itself fires only against a second live occurrence (the
duplicate-live error is returned only when the URN really has at least two
live occurrences, so duplicates whose extra occurrences are non-live are
never what this check rejects). -/
theorem verifyIntegrity_unique_live (snap : Snapshot) :
    (snap.VerifyIntegrity = none → ∀ u, liveCount u snap.Resources ≤ 1) ∧
    (∀ u, 2 ≤ liveCount u snap.Resources → snap.VerifyIntegrity ≠ none) ∧
    (∀ u st, snap.VerifyIntegrity = some (.duplicateLive u st) →
      2 ≤ liveCount u snap.Resources) := by
  have main : snap.VerifyIntegrity = none → ∀ u, liveCount u snap.Resources ≤ 1 := by
    intro h u
    exact (verifyResources_none_liveCount _ [] []
      ((verifyIntegrity_eq_none snap).mp h).2 u).2
  refine ⟨main, ?_, ?_⟩
  · intro u h2 hnone
    have := main hnone u
    omega
  · intro u st h
    have hv : verifyResources snap.Resources [] [] = some (.duplicateLive u st) := by
      unfold Snapshot.VerifyIntegrity at h
      split at h
      · exact absurd (Option.some.inj h) (by simp)
      · exact h
    have hd := verifyResources_dup _ [] [] u st hv
    rw [if_neg (by simp [mapGet])] at hd
    exact hd

/-- Two live resources sharing one URN. -/
def snapDup : Snapshot :=
  { Stack := "dev", Manifest := {}, Resources := [{ urn := "a" }, { urn := "a" }] }

theorem verifyIntegrity_unique_live_witness :
    snapDup.VerifyIntegrity = some (.duplicateLive "a" .created) ∧
    2 ≤ liveCount "a" snapDup.Resources :=
  ⟨by decide, (verifyIntegrity_unique_live snapDup).2.2 "a" .created (by decide)⟩

/-! ## C4 — fail-fast error reporting -/

/-- C4: `VerifyIntegrity` is fail-fast: a magic mismatch is reported before
any resource is examined; with the magic intact the result is exactly the
resource loop's; and any resource-level error is the per-resource check
result at the lowest violating index (all lower indices pass), and it
describes that resource's URN. -/
theorem verifyIntegrity_fail_fast (snap : Snapshot) :
    (snap.Manifest.Magic ≠ snap.Manifest.NewMagic →
      snap.VerifyIntegrity = some .magicMismatch) ∧
    (snap.Manifest.Magic = snap.Manifest.NewMagic →
      snap.VerifyIntegrity = verifyResources snap.Resources [] []) ∧
    (∀ e, snap.VerifyIntegrity = some e → e ≠ .magicMismatch →
      ∃ i, ∃ hi : i < snap.Resources.length,
        checkOne (snap.Resources.get ⟨i, hi⟩) (snap.Resources.drop (i + 1))
          (urnsAfter [] (snap.Resources.take i))
          (seenAfter [] (snap.Resources.take i)) = some e ∧
        e.resURN = some (snap.Resources.get ⟨i, hi⟩).urn ∧
        ∀ j (hj : j < i),
          checkOne (snap.Resources.get ⟨j, Nat.lt_trans hj hi⟩) (snap.Resources.drop (j + 1))
            (urnsAfter [] (snap.Resources.take j))
            (seenAfter [] (snap.Resources.take j)) = none) := by
  refine ⟨?_, ?_, ?_⟩
  · intro h
    unfold Snapshot.VerifyIntegrity
    rw [if_pos h]
  · intro h
    unfold Snapshot.VerifyIntegrity
    rw [if_neg (not_not_intro h)]
  · intro e h hne
    have hv : verifyResources snap.Resources [] [] = some e := by
      unfold Snapshot.VerifyIntegrity at h
      split at h
      · exact absurd (Option.some.inj h).symm hne
      · exact h
    obtain ⟨i, hi, hchk, hall⟩ := verifyResources_some_first _ [] [] e hv
    exact ⟨i, hi, hchk, (checkOne_some hchk).1, hall⟩

/-- A snapshot whose stored magic does not match the recomputed one. -/
def snapBadMagic : Snapshot :=
  { Stack := "dev", Manifest := { Magic := "x" }, Resources := [{ urn := "a" }] }

/-- A snapshot whose second resource names a dependency that is nowhere in
the sequence. -/
def snapMissingDep : Snapshot :=
  { Stack := "dev"
    Manifest := {}
    Resources := [{ urn := "a" }, { urn := "b", Dependencies := ["zzz"] }] }

theorem verifyIntegrity_fail_fast_witness :
    snapBadMagic.VerifyIntegrity = some .magicMismatch ∧
    ∃ i, ∃ hi : i < snapMissingDep.Resources.length,
      checkOne (snapMissingDep.Resources.get ⟨i, hi⟩) (snapMissingDep.Resources.drop (i + 1))
        (urnsAfter [] (snapMissingDep.Resources.take i))
        (seenAfter [] (snapMissingDep.Resources.take i)) =
          some (.missingDependency "b" "zzz") ∧
      VerifyError.resURN (.missingDependency "b" "zzz") =
        some (snapMissingDep.Resources.get ⟨i, hi⟩).urn ∧
      ∀ j (hj : j < i),
        checkOne (snapMissingDep.Resources.get ⟨j, Nat.lt_trans hj hi⟩)
          (snapMissingDep.Resources.drop (j + 1))
          (urnsAfter [] (snapMissingDep.Resources.take j))
          (seenAfter [] (snapMissingDep.Resources.take j)) = none :=
  ⟨(verifyIntegrity_fail_fast snapBadMagic).1 (by decide),
   (verifyIntegrity_fail_fast snapMissingDep).2.2 _ (by decide) (by decide)⟩

/-! ## C5 — no `unspecified` or `deleted` status -/

/-- C5: a snapshot containing a resource with status `unspecified` or
`deleted` is rejected, and a snapshot with neither status anywhere is never
rejected on status grounds (its result is never one of the two status
errors). -/
theorem verifyIntegrity_status_check (snap : Snapshot) :
    ((∃ s ∈ snap.Resources, s.Status = .unspecified ∨ s.Status = .deleted) →
      snap.VerifyIntegrity ≠ none) ∧
    ((∀ s ∈ snap.Resources, s.Status ≠ .unspecified ∧ s.Status ≠ .deleted) →
      ∀ u, snap.VerifyIntegrity ≠ some (.statusUnspecified u) ∧
        snap.VerifyIntegrity ≠ some (.statusDeleted u)) := by
  constructor
  · rintro ⟨s, hs, hstat⟩ hnone
    have hv := ((verifyIntegrity_eq_none snap).mp hnone).2
    have hok := verifyResources_none_status _ [] [] hv s hs
    rcases hstat with h | h
    · exact hok.1 h
    · exact hok.2 h
  · intro hall u
    constructor
    · intro h
      have hv : verifyResources snap.Resources [] [] = some (.statusUnspecified u) := by
        unfold Snapshot.VerifyIntegrity at h
        split at h
        · exact absurd (Option.some.inj h) (by simp)
        · exact h
      obtain ⟨s, hs, hstat⟩ := (verifyResources_status_some _ [] [] u).1 hv
      exact (hall s hs).1 hstat
    · intro h
      have hv : verifyResources snap.Resources [] [] = some (.statusDeleted u) := by
        unfold Snapshot.VerifyIntegrity at h
        split at h
        · exact absurd (Option.some.inj h) (by simp)
        · exact h
      obtain ⟨s, hs, hstat⟩ := (verifyResources_status_some _ [] [] u).2 hv
      exact (hall s hs).2 hstat

/-- A snapshot containing a resource with status `deleted`. -/
def snapDeleted : Snapshot :=
  { Stack := "dev"
    Manifest := {}
    Resources := [{ urn := "a" }, { urn := "c", Status := .deleted }] }

theorem verifyIntegrity_status_check_witness :
    snapDeleted.VerifyIntegrity ≠ none ∧
    snapDeleted.VerifyIntegrity = some (.statusDeleted "c") :=
  ⟨(verifyIntegrity_status_check snapDeleted).1
      ⟨{ urn := "c", Status := .deleted }, by decide, Or.inr rfl⟩,
   by decide⟩

/-! ## C6 — the magic checksum is a function of the version only -/

/-- C6: `NewMagic` is deterministic and a function of the `Version` field
alone: manifests with equal versions get equal magics, the result is
unchanged by the `Magic` already stored (recomputing after storing is
idempotent), and `Time`, `Magic` and `Plugins` never influence it. -/
theorem newMagic_deterministic :
    (∀ m1 m2 : Manifest, m1.Version = m2.Version → m1.NewMagic = m2.NewMagic) ∧
    (∀ m : Manifest, Manifest.NewMagic { m with Magic := m.NewMagic } = m.NewMagic) ∧
    (∀ (m : Manifest) (t : Nat) (mg : String) (pl : List String),
      Manifest.NewMagic { Time := t, Magic := mg, Version := m.Version, Plugins := pl } =
        m.NewMagic) := by
  refine ⟨?_, ?_, ?_⟩
  · intro m1 m2 h
    unfold Manifest.NewMagic
    rw [h]
  · intro m; rfl
  · intro m t mg pl; rfl

theorem newMagic_deterministic_witness :
    Manifest.NewMagic { Time := 1, Magic := "old", Version := "v3.2.1", Plugins := ["p"] } =
      Manifest.NewMagic { Time := 2, Magic := "other", Version := "v3.2.1", Plugins := [] } :=
  newMagic_deterministic.1 _ _ rfl

/-! ## C10 — the empty version disables tamper detection -/

/-- C10: with an empty `Version`, `NewMagic` is the empty string, so any
snapshot whose manifest has empty `Version` and empty `Magic` sails through
the magic-cookie gate: verification is exactly the resource loop, and the
magic-mismatch error can never be reported for such a snapshot. -/
theorem emptyVersion_no_tamper_detection :
    (∀ m : Manifest, m.Version = "" → m.NewMagic = "") ∧
    (∀ snap : Snapshot, snap.Manifest.Version = "" → snap.Manifest.Magic = "" →
      snap.VerifyIntegrity = verifyResources snap.Resources [] [] ∧
      snap.VerifyIntegrity ≠ some .magicMismatch) := by
  have h1 : ∀ m : Manifest, m.Version = "" → m.NewMagic = "" := by
    intro m h
    unfold Manifest.NewMagic
    rw [if_pos h]
  refine ⟨h1, ?_⟩
  intro snap hv hm
  have hmagic : snap.Manifest.Magic = snap.Manifest.NewMagic := by
    rw [hm, h1 _ hv]
  have heq : snap.VerifyIntegrity = verifyResources snap.Resources [] [] := by
    unfold Snapshot.VerifyIntegrity
    rw [if_neg (not_not_intro hmagic)]
  exact ⟨heq, heq ▸ verifyResources_ne_magic _ [] []⟩

theorem emptyVersion_no_tamper_detection_witness :
    snapTopo.VerifyIntegrity = verifyResources snapTopo.Resources [] [] ∧
    snapTopo.VerifyIntegrity ≠ some .magicMismatch :=
  emptyVersion_no_tamper_detection.2 snapTopo rfl rfl

/-! ## C3 — `Clone` is an independent deep copy, but drops the Manifest -/

/-- C3 counterexample: `Clone` does **not** preserve all fields of the
snapshot — `var newSnap Snapshot` leaves the clone's `Manifest` at the zero
value, so a snapshot with a non-zero `Manifest` differs from its clone
there. -/
theorem snapshot_clone_drops_manifest :
    (Snapshot.Clone
        { Stack := "dev", Manifest := { Version := "v1" }, Resources := [] }).Manifest ≠
      ({ Stack := "dev", Manifest := { Version := "v1" }, Resources := [] } : Snapshot).Manifest := by
  decide

/-- C3 (amended): `Clone` preserves the `Stack` and every resource state of
the sequence (the `Manifest` is left at the zero value, not copied), and at
the memory level the copy is fully independent: the clone's resource cells
are fresh addresses disjoint from the original's, the cloned states read
back equal to the originals, and overwriting any resource cell of either
snapshot never changes the states the other denotes. -/
theorem snapshot_clone_deep_copy (h h' : Heap) (snap c : SnapshotRef)
    (hwf : snap.wf h) (hclone : SnapshotRef.Clone h snap = (h', c)) :
    (∀ v : Snapshot, (v.Clone).Stack = v.Stack ∧ (v.Clone).Resources = v.Resources ∧
      (v.Clone).Manifest = Manifest.zero) ∧
    c.Stack = snap.Stack ∧ c.Manifest = Manifest.zero ∧
    c.states h' = snap.states h ∧
    snap.states h' = snap.states h ∧
    (∀ a ∈ snap.Resources, ∀ b ∈ c.Resources, a ≠ b) ∧
    (∀ a ∈ snap.Resources, ∀ s, c.states (h'.write a s) = c.states h') ∧
    (∀ b ∈ c.Resources, ∀ s, snap.states (h'.write b s) = snap.states h) := by
  have hvalue : ∀ v : Snapshot, (v.Clone).Stack = v.Stack ∧
      (v.Clone).Resources = v.Resources ∧ (v.Clone).Manifest = Manifest.zero := by
    intro v
    refine ⟨rfl, ?_, rfl⟩
    have hid : State.Clone = id := rfl
    simp [Snapshot.Clone, hid]
  have hspec := cloneResources_spec snap.Resources h hwf
  have hid : (fun a => (Heap.read h a).Clone) = fun a => h.read a := rfl
  rw [hid] at hspec
  have hvals : snap.Resources.map (fun a => h.read a) = snap.states h := rfl
  rw [hvals] at hspec
  have hc : SnapshotRef.Clone h snap =
      (h ++ snap.states h,
       { Stack := snap.Stack, Manifest := Manifest.zero,
         Resources := List.range' h.length snap.Resources.length }) := by
    unfold SnapshotRef.Clone
    rw [hspec]
  rw [hclone] at hc
  have hh' : h' = h ++ snap.states h := congrArg Prod.fst hc
  have hcc : c =
      { Stack := snap.Stack, Manifest := Manifest.zero,
        Resources := List.range' h.length snap.Resources.length } :=
    congrArg Prod.snd hc
  have hlen : (snap.states h).length = snap.Resources.length := by
    unfold SnapshotRef.states
    exact List.length_map _ _
  have hfresh : ∀ b ∈ c.Resources, h.length ≤ b ∧ b < h.length + snap.Resources.length := by
    intro b hb
    rw [hcc] at hb
    exact List.mem_range'_1.mp hb
  have hne : ∀ a ∈ snap.Resources, ∀ b ∈ c.Resources, a ≠ b := by
    intro a ha b hb
    have h1 := hwf a ha
    have h2 := (hfresh b hb).1
    omega
  have hcstates : c.states h' = snap.states h := by
    rw [hcc, hh']
    unfold SnapshotRef.states
    have := read_range'_append (snap.states h) h
    rw [hlen] at this
    exact this
  have hsstates : snap.states h' = snap.states h := by
    rw [hh']
    unfold SnapshotRef.states
    refine List.map_congr_left fun a ha => ?_
    exact Heap.read_append_left h _ a (hwf a ha)
  refine ⟨hvalue, by rw [hcc], by rw [hcc], hcstates, hsstates, hne, ?_, ?_⟩
  · intro a ha s
    unfold SnapshotRef.states
    refine List.map_congr_left fun b hb => ?_
    exact Heap.read_write_ne h' a b s (hne a ha b hb)
  · intro b hb s
    rw [← hsstates]
    unfold SnapshotRef.states
    refine List.map_congr_left fun a ha => ?_
    exact Heap.read_write_ne h' b a s (hne a ha b hb).symm

/-- A one-cell heap and a snapshot reference pointing at it. -/
def heap0 : Heap := [{ urn := "a" }]

/-- A snapshot reference with a non-zero manifest and one resource pointer. -/
def snapRef0 : SnapshotRef :=
  { Stack := "dev", Manifest := { Version := "v1" }, Resources := [0] }

theorem snapshot_clone_deep_copy_witness :
    (SnapshotRef.Clone heap0 snapRef0).2.states (SnapshotRef.Clone heap0 snapRef0).1 =
      snapRef0.states heap0 ∧
    ∀ a ∈ snapRef0.Resources, ∀ b ∈ (SnapshotRef.Clone heap0 snapRef0).2.Resources, a ≠ b := by
  have hwf : snapRef0.wf heap0 := by
    intro a ha
    simp [snapRef0] at ha
    subst ha
    decide
  have H := snapshot_clone_deep_copy heap0 (SnapshotRef.Clone heap0 snapRef0).1 snapRef0
    (SnapshotRef.Clone heap0 snapRef0).2 hwf rfl
  exact ⟨H.2.2.2.1, H.2.2.2.2.2.1⟩

/-! ## Structure lemmas for the orchestrator -/

/-- The preview-and-prompt phase performs exactly one applier invocation:
the dry run on the unmodified operation. -/
theorem PreviewThenPrompt_calls (kind : UpdateKind) (op : UpdateOperation) (ap : Applier)
    (input : List Response) :
    (PreviewThenPrompt kind op ap input).calls =
      [⟨kind, op, { DryRun := true, ShowLink := true }⟩] := by
  rcases h : ap.ret kind op { DryRun := true, ShowLink := true } with ⟨pl, ch, re⟩
  simp only [PreviewThenPrompt, h]
  cases re with
  | none =>
    by_cases hc : (op.Opts.AutoApprove || kind = .previewUpdate) = true
    · rw [if_pos hc]
    · rw [if_neg hc]
  | some r => rfl

/-- Reduction of `PreviewThenPrompt` when the dry run returns a `nil`
result. -/
theorem PreviewThenPrompt_of_ret_none (kind : UpdateKind) (op : UpdateOperation)
    (ap : Applier) (input : List Response)
    (hap : (ap.ret kind op { DryRun := true, ShowLink := true }).2.2 = none) :
    PreviewThenPrompt kind op ap input =
      if op.Opts.AutoApprove || kind = .previewUpdate then
        { plan := (ap.ret kind op { DryRun := true, ShowLink := true }).1
          changes := (ap.ret kind op { DryRun := true, ShowLink := true }).2.1
          res := none
          calls := [⟨kind, op, { DryRun := true, ShowLink := true }⟩]
          prompted := false }
      else
        { plan := (ap.ret kind op { DryRun := true, ShowLink := true }).1
          changes := (ap.ret kind op { DryRun := true, ShowLink := true }).2.1
          res := confirmBeforeUpdating kind input op.Opts
          calls := [⟨kind, op, { DryRun := true, ShowLink := true }⟩]
          prompted := true } := by
  rcases h : ap.ret kind op { DryRun := true, ShowLink := true } with ⟨pl, ch, re⟩
  rw [h] at hap
  simp only at hap
  subst hap
  simp only [PreviewThenPrompt, h]

/-! ## C7 — the real run reuses the pre-preview plan -/

/-- C7: with a plan supplied in the engine options and the preview not
skipped, the orchestrator clones the plan before the preview (the preview's
dry run is invoked on the untouched operation), and — when the run proceeds —
the single real (non-dry-run) invocation carries the pre-preview clone in
`op.Opts.Engine.Plan`, not the plan object the preview mutated in place. -/
theorem execute_reuses_original_plan (kind : UpdateKind) (op : UpdateOperation)
    (ap : Applier) (input : List Response) (p : Plan)
    (hsp : op.Opts.SkipPreview = false)
    (hp : op.Opts.Engine.Plan = some p)
    (hk : kind ≠ .previewUpdate)
    (hres : (PreviewThenPrompt kind op ap input).res = none) :
    ∃ c : ApplyCall,
      (PreviewThenPromptThenExecute kind op ap input).calls =
        (PreviewThenPrompt kind op ap input).calls ++ [c] ∧
      c.opts.DryRun = false ∧
      c.op.Opts.Engine.Plan = some (Plan.Clone p) ∧
      Plan.Clone p = p ∧
      (ap.mutate p ≠ p → c.op.Opts.Engine.Plan ≠ some (ap.mutate p)) := by
  refine ⟨⟨kind,
      ((op.withPlan (op.Opts.Engine.Plan.map ap.mutate)).withPlan
        (some (Plan.Clone p))).withGeneratePlan false,
      { DryRun := false, ShowLink := true }⟩, ?_, rfl, ?_, rfl, ?_⟩
  · simp only [PreviewThenPromptThenExecute, hsp, Bool.false_eq_true, if_false, hp,
      Option.map_some', hres, Option.isSome_none, Bool.false_or,
      decide_eq_false hk, if_false]
  · simp [UpdateOperation.withPlan, UpdateOperation.withGeneratePlan]
  · intro hmut
    simp only [UpdateOperation.withPlan, UpdateOperation.withGeneratePlan]
    intro hh
    have : Plan.Clone p = ap.mutate p := by
      simpa using hh
    exact hmut (this.symm.trans rfl)

/-- A plan-mutating applier whose runs succeed with no changes. -/
def apConst : Applier :=
  { ret := fun _ _ _ => (none, [], none)
    mutate := fun pl => { steps := "mutated" :: pl.steps } }

/-- An operation carrying a one-step plan, previews enabled. -/
def opWithPlan : UpdateOperation :=
  { Opts := { Engine := { Plan := some { steps := ["step0"] } } } }

theorem execute_reuses_original_plan_witness :
    ∃ c : ApplyCall,
      (PreviewThenPromptThenExecute .updateUpdate opWithPlan apConst [.yes]).calls =
        (PreviewThenPrompt .updateUpdate opWithPlan apConst [.yes]).calls ++ [c] ∧
      c.opts.DryRun = false ∧
      c.op.Opts.Engine.Plan = some (Plan.Clone { steps := ["step0"] }) ∧
      Plan.Clone { steps := ["step0"] } = { steps := ["step0"] } ∧
      (apConst.mutate { steps := ["step0"] } ≠ { steps := ["step0"] } →
        c.op.Opts.Engine.Plan ≠ some (apConst.mutate { steps := ["step0"] })) :=
  execute_reuses_original_plan .updateUpdate opWithPlan apConst [.yes]
    { steps := ["step0"] } rfl rfl (by decide) (by decide)

/-! ## C8 — prompting and the preview-only gate -/

/-- C8 (amended): after a successful dry run the user is prompted (with the
yes/no/details choices) unless auto-approval is on or the kind is
`PreviewUpdate`, in which cases a `nil` result is returned without
prompting; and — **provided the preview phase is not skipped** — a
`PreviewUpdate` kind never reaches the real (non-dry-run) applier
invocation.  (The restriction to `SkipPreview = false` is forced: with
`SkipPreview` set, the preview-kind early return is bypassed and the code
invokes the applier for real; see the counterexample.) -/
theorem preview_only_gate (kind : UpdateKind) (op : UpdateOperation) (ap : Applier)
    (input : List Response)
    (hap : (ap.ret kind op { DryRun := true, ShowLink := true }).2.2 = none) :
    ((op.Opts.AutoApprove = true ∨ kind = .previewUpdate) →
      (PreviewThenPrompt kind op ap input).prompted = false ∧
      (PreviewThenPrompt kind op ap input).res = none) ∧
    (op.Opts.AutoApprove = false → kind ≠ .previewUpdate →
      (PreviewThenPrompt kind op ap input).prompted = true ∧
      (PreviewThenPrompt kind op ap input).res = confirmBeforeUpdating kind input op.Opts) ∧
    (op.Opts.SkipPreview = false → promptChoices op.Opts = ["yes", "no", "details"]) ∧
    (kind = .previewUpdate → op.Opts.SkipPreview = false →
      ∀ c ∈ (PreviewThenPromptThenExecute kind op ap input).calls,
        c.opts.DryRun = true) := by
  have hpp := PreviewThenPrompt_of_ret_none kind op ap input hap
  refine ⟨?_, ?_, ?_, ?_⟩
  · intro hcond
    have hc : (op.Opts.AutoApprove || kind = .previewUpdate) = true := by
      rcases hcond with h | h
      · simp [h]
      · simp [h]
    rw [hpp, if_pos hc]
    exact ⟨rfl, rfl⟩
  · intro haa hk
    have hc : ¬((op.Opts.AutoApprove || kind = .previewUpdate) = true) := by
      simp [haa, hk]
    rw [hpp, if_neg hc]
    exact ⟨rfl, rfl⟩
  · intro hsp
    simp [promptChoices, hsp]
  · intro hk hsp c hc
    rw [PreviewThenPromptThenExecute] at hc
    rw [hsp] at hc
    simp only [Bool.false_eq_true, if_false] at hc
    rw [hk] at hc
    simp only [decide_eq_true_eq, Bool.or_eq_true, or_true, if_pos] at hc
    rw [PreviewThenPrompt_calls] at hc
    simp only [List.mem_singleton] at hc
    subst hc
    rfl

/-- C8 counterexample: with `SkipPreview` set, a `PreviewUpdate` kind is
**not** stopped before the real run — `PreviewThenPromptThenExecute` skips
the whole preview block, including its preview-kind early return, and makes
exactly one applier invocation with `DryRun: false`.  This refutes the
claim's "when the kind is preview-only, ... never invokes the real
(non-dry-run) apply" as an unconditional statement. -/
theorem preview_only_gate_counterexample :
    (PreviewThenPromptThenExecute .previewUpdate
        { Opts := { SkipPreview := true } } apConst []).calls.map
      (fun c => c.opts.DryRun) = [false] := by
  decide

theorem preview_only_gate_witness :
    ((PreviewThenPrompt .previewUpdate opWithPlan apConst []).prompted = false ∧
      (PreviewThenPrompt .previewUpdate opWithPlan apConst []).res = none) ∧
    ∀ c ∈ (PreviewThenPromptThenExecute .previewUpdate opWithPlan apConst []).calls,
      c.opts.DryRun = true := by
  have H := preview_only_gate .previewUpdate opWithPlan apConst [] rfl
  exact ⟨H.1 (Or.inr rfl), H.2.2.2 rfl rfl⟩

/-! ## C9 — declining the confirmation bails without applying -/

/-- C9: answering `no` at the prompt produces `result.Bail()` — a non-`nil`
result that is not an error — and the orchestrator then returns without any
real (non-dry-run) applier invocation: every call it made was the dry run. -/
theorem decline_confirmation_bails (kind : UpdateKind) (op : UpdateOperation)
    (ap : Applier) (rest : List Response)
    (hsp : op.Opts.SkipPreview = false)
    (hap : (ap.ret kind op { DryRun := true, ShowLink := true }).2.2 = none)
    (haa : op.Opts.AutoApprove = false)
    (hk : kind ≠ .previewUpdate) :
    (∀ (k : UpdateKind) (r : List Response) (opts : UpdateOptions),
      confirmBeforeUpdating k (Response.no :: r) opts = some .bail) ∧
    (∀ e, (UpdateResult.bail : UpdateResult) ≠ .fromError e) ∧
    (PreviewThenPromptThenExecute kind op ap (Response.no :: rest)).res = some .bail ∧
    ∀ c ∈ (PreviewThenPromptThenExecute kind op ap (Response.no :: rest)).calls,
      c.opts.DryRun = true := by
  have hconfirm : ∀ (k : UpdateKind) (r : List Response) (opts : UpdateOptions),
      confirmBeforeUpdating k (Response.no :: r) opts = some .bail := fun _ _ _ => rfl
  have hpp := PreviewThenPrompt_of_ret_none kind op ap (Response.no :: rest) hap
  have hc : ¬((op.Opts.AutoApprove || kind = .previewUpdate) = true) := by
    simp [haa, hk]
  have hres : (PreviewThenPrompt kind op ap (Response.no :: rest)).res = some .bail := by
    rw [hpp, if_neg hc]
    exact hconfirm kind rest op.Opts
  have hexec : PreviewThenPromptThenExecute kind op ap (Response.no :: rest) =
      { changes := (PreviewThenPrompt kind op ap (Response.no :: rest)).changes
        res := (PreviewThenPrompt kind op ap (Response.no :: rest)).res
        calls := (PreviewThenPrompt kind op ap (Response.no :: rest)).calls
        prompted := (PreviewThenPrompt kind op ap (Response.no :: rest)).prompted } := by
    rw [PreviewThenPromptThenExecute, hsp]
    simp only [Bool.false_eq_true, if_false]
    rw [if_pos (by rw [hres]; simp)]
  refine ⟨hconfirm, by simp, ?_, ?_⟩
  · rw [hexec]
    exact hres
  · intro c hc2
    rw [hexec] at hc2
    simp only [] at hc2
    rw [PreviewThenPrompt_calls] at hc2
    simp only [List.mem_singleton] at hc2
    subst hc2
    rfl

theorem decline_confirmation_bails_witness :
    (PreviewThenPromptThenExecute .updateUpdate opWithPlan apConst [.no]).res =
      some .bail ∧
    ∀ c ∈ (PreviewThenPromptThenExecute .updateUpdate opWithPlan apConst [.no]).calls,
      c.opts.DryRun = true := by
  have H := decline_confirmation_bails .updateUpdate opWithPlan apConst [] rfl rfl rfl
    (by decide)
  exact ⟨H.2.2.1, H.2.2.2⟩

end Pulumi
